import Mathlib

/-
  Verification of the Sickw-orders extraction / classification / search /
  export pipeline (src/index.tsx) against its natural-language specification.

  Strings are modelled as lists of characters (the JavaScript code works on
  UTF-16 strings; every operation used by the pipeline is character-wise, so
  a list of characters is a faithful shallow embedding).  Each definition
  below mirrors one JavaScript function or expression of the source file.
-/

namespace Sickw

/-- Convert a Lean string literal to the character-list representation used
throughout this development. -/
def str (s : String) : List Char := s.data

/-- Whitespace recognised by the JavaScript trim method (ASCII whitespace
plus the no-break space and the byte-order mark, the only non-ASCII
whitespace characters that can occur in this pipeline's inputs). -/
def wsB (c : Char) : Bool :=
  c == ' ' || c == '\t' || c == '\n' || c == '\x0d' || c == '\x0b' ||
  c == '\x0c' || c == '\u00a0' || c == '\ufeff'

/-- Model of String.prototype.trim: drop leading and trailing whitespace. -/
def trimWs (s : List Char) : List Char :=
  ((s.dropWhile wsB).reverse.dropWhile wsB).reverse

/-- Decide whether the first list is a prefix of the second. -/
def isPrefixL : List Char → List Char → Bool
  | [], _ => true
  | _ :: _, [] => false
  | a :: as, b :: bs => a == b && isPrefixL as bs

/-- Index of the first occurrence of the pattern in the text, scanning left
to right (model of String.prototype.indexOf restricted to hit/miss plus
position). -/
def firstOcc (pat : List Char) : List Char → Option Nat
  | [] => if isPrefixL pat [] then some 0 else none
  | s@(_ :: rest) =>
    if isPrefixL pat s then some 0
    else (firstOcc pat rest).map (fun n => n + 1)

/-- Model of String.prototype.includes: substring containment. -/
def containsL (hay pat : List Char) : Bool := (firstOcc pat hay).isSome

/-- Fuel-driven worker for splitOnL.  The fuel only bounds the number of
splits; it is set to more than the length of the text, which a split on a
non-empty separator can never reach. -/
def splitOnAux (sep : List Char) : Nat → List Char → List (List Char)
  | 0, s => [s]
  | Nat.succ fuel, s =>
    match firstOcc sep s with
    | none => [s]
    | some i => s.take i :: splitOnAux sep fuel (s.drop (i + sep.length))

/-- Model of String.prototype.split with a string separator: cut the text at
every occurrence of the separator. -/
def splitOnL (sep s : List Char) : List (List Char) :=
  splitOnAux sep (s.length + 1) s

/-- Fuel-driven worker for replaceAllL, same fuel convention as splitOnAux. -/
def replaceAllAux (pat rep : List Char) : Nat → List Char → List Char
  | 0, s => s
  | Nat.succ fuel, s =>
    match firstOcc pat s with
    | none => s
    | some i =>
      s.take i ++ rep ++ replaceAllAux pat rep fuel (s.drop (i + pat.length))

/-- Model of String.prototype.replace with a global literal pattern: rewrite
every non-overlapping occurrence, scanning left to right. -/
def replaceAllL (pat rep s : List Char) : List Char :=
  replaceAllAux pat rep (s.length + 1) s

/-- Fuel-driven worker for stripTags. -/
def stripTagsAux : Nat → List Char → List Char
  | 0, s => s
  | Nat.succ fuel, s =>
    match s with
    | [] => []
    | c :: rest =>
      if c == '<' then
        match firstOcc ['>'] rest with
        | some k =>
          if 1 ≤ k then stripTagsAux fuel (rest.drop (k + 1))
          else c :: stripTagsAux fuel rest
        | none => c :: stripTagsAux fuel rest
      else c :: stripTagsAux fuel rest

/-- Model of the tag-removing replace in getValue: the regular expression
matching a less-than sign, one or more characters other than greater-than,
and a greater-than sign, replaced globally by the empty string. -/
def stripTags (s : List Char) : List Char := stripTagsAux (s.length + 1) s

/-- The cleanup chain applied to a raw field slice in getValue: strip markup
tags, decode the non-breaking-space entity to a space, trim. -/
def cleanVal (raw : List Char) : List Char :=
  trimWs (replaceAllL (str "&nbsp;") (str " ") (stripTags raw))

/-- Model of the getValue closure of parseSickwHtml (src/index.tsx lines
62-75): find the label followed by a colon; the raw value runs from just
after the colon to the first occurrence of a break-tag opening, or, only
when no break-tag opening occurs anywhere after the colon, to the first
newline, or else to the end of the block; then clean it up. -/
def getValue (preContent key : List Char) : List Char :=
  let searchKey := key ++ [':']
  match firstOcc searchKey preContent with
  | none => []
  | some idx =>
    let rest := preContent.drop (idx + searchKey.length)
    let stop :=
      match firstOcc (str "<br") rest with
      | some e => e
      | none =>
        match firstOcc ['\n'] rest with
        | some e => e
        | none => rest.length
    cleanVal (rest.take stop)

/-- The five carrier groups of the Device interface (src/index.tsx line 20). -/
inductive Group : Type
  | Unlocked
  | ATT
  | TMobileSprint
  | Verizon
  | Other
deriving DecidableEq, Repr

/-- The Device record (src/index.tsx lines 7-22).  Optional string fields are
represented as character lists with the empty list standing for absence,
exactly as the code stores the empty string. -/
structure Device : Type where
  id : List Char
  imei : List Char
  imei2 : List Char
  modelDesc : List Char
  serial : List Char
  warrantyStatus : List Char
  icloudLock : List Char
  carrier : List Char
  simLock : List Char
  estPurchaseDate : List Char
  activationStatus : List Char
  rawText : List Char
  group : Group
  isActive : Bool
deriving DecidableEq, Repr

/-- Carrier-group derivation of parseSickwHtml (src/index.tsx lines 87-99):
lowercase both inputs, then the ordered substring checks. -/
def classifyGroup (carrierRaw simLock : List Char) : Group :=
  let c := carrierRaw.map Char.toLower
  let s := simLock.map Char.toLower
  if containsL s (str "unlocked") || containsL c (str "unlock") ||
      containsL c (str "open policy") then Group.Unlocked
  else if containsL c (str "t-mobile") || containsL c (str "sprint") then
    Group.TMobileSprint
  else if containsL c (str "at&t") then Group.ATT
  else if containsL c (str "verizon") then Group.Verizon
  else Group.Other

/-- Word character of the JavaScript regular-expression escape for word
characters: ASCII letters, digits, underscore. -/
def isWordChar (c : Char) : Bool := c.isAlphanum || c == '_'

/-- Whether a year token matches at position i of s: four decimal digits
starting with 19 or 20, with a word boundary on each side.  This is the
match condition of the regular expression used on the purchase date
(src/index.tsx line 113). -/
def yearAt (s : List Char) (i : Nat) : Bool :=
  let t := (s.drop i).take 4
  t.length == 4 && t.all Char.isDigit &&
    (isPrefixL (str "19") t || isPrefixL (str "20") t) &&
    (i == 0 || !isWordChar (s.getD (i - 1) ' ')) &&
    (i + 4 == s.length || !isWordChar (s.getD (i + 4) ' '))

/-- Model of the test of the year regular expression: a match exists at some
position of the string. -/
def hasYearToken (s : List Char) : Bool :=
  (List.range s.length).any (yearAt s)

/-- Activation derivation of parseSickwHtml (src/index.tsx lines 101-117):
the activation status is authoritative when non-empty, otherwise the
purchase date is inspected, otherwise the default is false. -/
def classifyActive (activationStatus estPurchaseDate : List Char) : Bool :=
  if activationStatus.isEmpty then
    if estPurchaseDate.isEmpty then false
    else if containsL (estPurchaseDate.map Char.toLower) (str "not activated")
      then false
    else if hasYearToken estPurchaseDate then true
    else false
  else
    if containsL (activationStatus.map Char.toLower) (str "not activated")
      then false
    else true

/-- The preformatted-block match of parseSickwHtml (src/index.tsx line 57):
the content between the first pre open tag and the first pre close tag
after it, if both occur. -/
def preBlock (chunk : List Char) : Option (List Char) :=
  match firstOcc (str "<pre>") chunk with
  | none => none
  | some i =>
    let rest := chunk.drop (i + 5)
    match firstOcc (str "</pre>") rest with
    | none => none
    | some j => some (rest.take j)

/-- Loop body of parseSickwHtml (src/index.tsx lines 50-135) for segment
index i: accept the segment only if its first fifteen characters are
decimal digits and it contains a preformatted block, and build the Device
from the extracted fields. -/
def parseChunk (i : Nat) (chunk : List Char) : Option Device :=
  let imei := chunk.take 15
  if imei.length == 15 && imei.all Char.isDigit then
    match preBlock chunk with
    | none => none
    | some preContent =>
      let carrierRaw := getValue preContent (str "Locked Carrier")
      let simLock := getValue preContent (str "Sim-Lock Status")
      let estPurchaseDate := getValue preContent (str "Estimated Purchase Date")
      let activationStatus := getValue preContent (str "Activation Status")
      some
        { id := imei ++ ['-'] ++ (toString i).data
          imei := imei
          imei2 := getValue preContent (str "IMEI2")
          modelDesc := getValue preContent (str "Model Description")
          serial := getValue preContent (str "Serial Number")
          warrantyStatus := getValue preContent (str "Warranty Status")
          icloudLock := (getValue preContent (str "iCloud Lock")).map Char.toUpper
          carrier := carrierRaw
          simLock := simLock
          estPurchaseDate := estPurchaseDate
          activationStatus := activationStatus
          rawText := preContent
          group := classifyGroup carrierRaw simLock
          isActive := classifyActive activationStatus estPurchaseDate }
  else none

/-- Model of parseSickwHtml (src/index.tsx lines 46-137): split the document
on the bold IMEI marker, drop the part before the first marker, and process
each remaining segment with its 1-based index. -/
def parseSickwHtml (html : List Char) : List Device :=
  let chunks := splitOnL (str "<b>IMEI: </b>") html
  (List.enumFrom 1 (chunks.drop 1)).filterMap fun p => parseChunk p.1 p.2

/-- Case-insensitive substring containment, the reading used by the
specification text for the classification rules. -/
def containsInsens (hay pat : List Char) : Bool :=
  containsL (hay.map Char.toLower) (pat.map Char.toLower)

/-- Carrier-group rules as worded by the specification (claim C5): ordered,
case-insensitive containment checks.  Written from the specification text,
to be compared with classifyGroup, which is written from the source. -/
def groupSpecC5 (carrierRaw simLock : List Char) : Group :=
  if containsInsens simLock (str "unlocked") ||
      containsInsens carrierRaw (str "unlock") ||
      containsInsens carrierRaw (str "open policy") then Group.Unlocked
  else if containsInsens carrierRaw (str "t-mobile") ||
      containsInsens carrierRaw (str "sprint") then Group.TMobileSprint
  else if containsInsens carrierRaw (str "at&t") then Group.ATT
  else if containsInsens carrierRaw (str "verizon") then Group.Verizon
  else Group.Other

/-- Structural content of a successful parseChunk: the accepted segment
starts with fifteen digits which become the IMEI, the raw block is the
segment's preformatted block, every stored field is the corresponding
extracted value, and group and activation are derived by the classifier. -/
theorem parseChunk_some {i : Nat} {chunk : List Char} {d : Device}
    (h : parseChunk i chunk = some d) :
    d.imei = chunk.take 15 ∧ d.imei.length = 15 ∧
    d.imei.all Char.isDigit = true ∧
    preBlock chunk = some d.rawText ∧
    d.icloudLock = (getValue d.rawText (str "iCloud Lock")).map Char.toUpper ∧
    d.carrier = getValue d.rawText (str "Locked Carrier") ∧
    d.simLock = getValue d.rawText (str "Sim-Lock Status") ∧
    d.estPurchaseDate = getValue d.rawText (str "Estimated Purchase Date") ∧
    d.activationStatus = getValue d.rawText (str "Activation Status") ∧
    d.group = classifyGroup d.carrier d.simLock ∧
    d.isActive = classifyActive d.activationStatus d.estPurchaseDate := by
  simp only [parseChunk] at h
  by_cases hg : ((chunk.take 15).length == 15 && (chunk.take 15).all Char.isDigit) = true
  · rw [if_pos hg] at h
    cases hpre : preBlock chunk with
    | none => rw [hpre] at h; exact absurd h (by simp)
    | some pre =>
      rw [hpre] at h
      simp only [Option.some.injEq] at h
      subst h
      simp only [Bool.and_eq_true, beq_iff_eq] at hg
      exact ⟨rfl, hg.1, hg.2, rfl, rfl, rfl, rfl, rfl, rfl, rfl, rfl⟩
  · rw [if_neg hg] at h
    exact absurd h (by simp)

/-- Every device of the parse output arises from some accepted segment. -/
theorem mem_parse {html : List Char} {d : Device}
    (h : d ∈ parseSickwHtml html) : ∃ i chunk, parseChunk i chunk = some d := by
  unfold parseSickwHtml at h
  simp only [List.mem_filterMap] at h
  obtain ⟨p, _, hp⟩ := h
  exact ⟨p.1, p.2, hp⟩

/-- Concrete well-formed input fixture used by witnesses. -/
def cHtml : List Char :=
  str "<b>IMEI: </b>123456789012345<pre>Model Description: Foo-USA<br>Serial Number: SN123<br>iCloud Lock: off<br>Locked Carrier: AT&T US<br>Sim-Lock Status: Unlocked<br>Estimated Purchase Date: 2021-03-01<br>Activation Status: Activated</pre>"

/-- The device extracted from the fixture cHtml. -/
def cDev : Device :=
  { id := str "123456789012345-1"
    imei := str "123456789012345"
    imei2 := []
    modelDesc := str "Foo-USA"
    serial := str "SN123"
    warrantyStatus := []
    icloudLock := str "OFF"
    carrier := str "AT&T US"
    simLock := str "Unlocked"
    estPurchaseDate := str "2021-03-01"
    activationStatus := str "Activated"
    rawText := str "Model Description: Foo-USA<br>Serial Number: SN123<br>iCloud Lock: off<br>Locked Carrier: AT&T US<br>Sim-Lock Status: Unlocked<br>Estimated Purchase Date: 2021-03-01<br>Activation Status: Activated"
    group := Group.Unlocked
    isActive := true }

set_option maxRecDepth 100000 in
/-- The fixture parses to exactly the device cDev. -/
theorem cHtml_parses : parseSickwHtml cHtml = [cDev] := by decide

/-- C5: the derived carrier group follows the ordered, case-insensitive
rules of the specification (unlocked before T-Mobile or Sprint before
AT and T before Verizon before Other), the group stored in every parsed
device is derived from its own stored carrier and sim-lock fields by those
rules, and in particular a device whose sim-lock status contains the word
Unlocked while the carrier names AT and T classifies as Unlocked. -/
theorem claim_C5_group_rules :
    (∀ carrierRaw simLock,
      classifyGroup carrierRaw simLock = groupSpecC5 carrierRaw simLock) ∧
    (∀ html d, d ∈ parseSickwHtml html →
      d.group = classifyGroup d.carrier d.simLock) ∧
    classifyGroup (str "AT&T US") (str "Unlocked") = Group.Unlocked := by
  refine ⟨fun c s => rfl, fun html d h => ?_, by decide⟩
  obtain ⟨i, chunk, hp⟩ := mem_parse h
  exact (parseChunk_some hp).2.2.2.2.2.2.2.2.2.1

/-- Witness for C5: the rules and the pipeline conjunct applied at the
concrete fixture. -/
theorem claim_C5_group_rules_witness :
    classifyGroup (str "AT&T US") (str "Unlocked") =
      groupSpecC5 (str "AT&T US") (str "Unlocked") ∧
    cDev.group = classifyGroup cDev.carrier cDev.simLock := by
  constructor
  · exact claim_C5_group_rules.1 (str "AT&T US") (str "Unlocked")
  · exact claim_C5_group_rules.2.1 cHtml cDev (by rw [cHtml_parses]; exact List.mem_singleton.mpr rfl)

/-- Case-insensitive containment of the phrase not activated, the test used
by both activation branches. -/
def containsNA (s : List Char) : Bool :=
  containsL (s.map Char.toLower) (str "not activated")

/-- C6: activation derivation.  In every parsed device the stored flag is
derived from the stored activation status and purchase date; when the
activation status is non-empty the flag is true exactly when the status
does not contain the phrase not activated (case-insensitively); when the
activation status is empty, the flag is false if the purchase date contains
that phrase, true if the date carries a four-digit year token starting 19
or 20, and false otherwise, including when the date is empty too. -/
theorem claim_C6_activation :
    (∀ html d, d ∈ parseSickwHtml html →
      d.isActive = classifyActive d.activationStatus d.estPurchaseDate) ∧
    (∀ act est, act ≠ [] →
      (classifyActive act est = true ↔ containsNA act = false)) ∧
    (∀ est, containsNA est = true → classifyActive [] est = false) ∧
    (∀ est, containsNA est = false → hasYearToken est = true →
      classifyActive [] est = true) ∧
    (∀ est, containsNA est = false → hasYearToken est = false →
      classifyActive [] est = false) := by
  refine ⟨fun html d h => ?_, fun act est hne => ?_, fun est hna => ?_,
    fun est hna hyr => ?_, fun est hna hyr => ?_⟩
  · obtain ⟨i, chunk, hp⟩ := mem_parse h
    exact (parseChunk_some hp).2.2.2.2.2.2.2.2.2.2
  · have : act.isEmpty = false := by
      cases act with
      | nil => exact absurd rfl hne
      | cons a as => rfl
    simp [classifyActive, this, containsNA]
  · have hne : est.isEmpty = false := by
      cases est with
      | nil => exact absurd hna (by decide)
      | cons a as => rfl
    simp [classifyActive, hne, containsNA] at hna ⊢
    simp [hna]
  · have hne : est.isEmpty = false := by
      cases est with
      | nil => exact absurd hyr (by decide)
      | cons a as => rfl
    simp [classifyActive, hne, containsNA] at hna ⊢
    simp [hna, hyr]
  · cases hest : est.isEmpty with
    | true => simp [classifyActive, hest]
    | false =>
      simp [classifyActive, hest, containsNA] at hna ⊢
      simp [hna, hyr]

/-- Witness for C6: all branches of the activation rules exercised at
concrete inputs, plus the pipeline conjunct at the fixture device. -/
theorem claim_C6_activation_witness :
    cDev.isActive = classifyActive cDev.activationStatus cDev.estPurchaseDate ∧
    (classifyActive (str "Activated") [] = true ↔
      containsNA (str "Activated") = false) ∧
    classifyActive [] (str "Not Activated") = false ∧
    classifyActive [] (str "2021-03-01") = true ∧
    classifyActive [] (str "unknown") = false := by
  refine ⟨?_, ?_, ?_, ?_, ?_⟩
  · exact claim_C6_activation.1 cHtml cDev
      (by rw [cHtml_parses]; exact List.mem_singleton.mpr rfl)
  · exact claim_C6_activation.2.1 (str "Activated") [] (by decide)
  · exact claim_C6_activation.2.2.1 (str "Not Activated") (by decide)
  · exact claim_C6_activation.2.2.2.1 (str "2021-03-01") (by decide) (by decide)
  · exact claim_C6_activation.2.2.2.2 (str "unknown") (by decide) (by decide)

/-- Concrete fixture whose iCloud Lock field is neither ON nor OFF. -/
def cHtml3 : List Char :=
  str "<b>IMEI: </b>123456789012345<pre>iCloud Lock: maybe</pre>"

/-- Counterexample to C3: a device whose stored icloudLock field is the
string MAYBE, which is none of ON, OFF, or the empty string. -/
theorem claim_C3_counterexample :
    (parseSickwHtml cHtml3).map Device.icloudLock = [str "MAYBE"] ∧
    str "MAYBE" ≠ str "ON" ∧ str "MAYBE" ≠ str "OFF" ∧
    str "MAYBE" ≠ ([] : List Char) := by decide

/-- C3 as amended: the stored icloudLock field of every parsed device is
exactly the character-wise uppercase of the iCloud Lock field extracted
from the device's own raw block; it is uppercased but not restricted to
the values ON, OFF, or empty. -/
theorem claim_C3_icloud_uppercased :
    ∀ html d, d ∈ parseSickwHtml html →
      d.icloudLock = (getValue d.rawText (str "iCloud Lock")).map Char.toUpper := by
  intro html d h
  obtain ⟨i, chunk, hp⟩ := mem_parse h
  exact (parseChunk_some hp).2.2.2.2.1

/-- Witness for C3 as amended, at the concrete fixture device. -/
theorem claim_C3_icloud_uppercased_witness :
    cDev.icloudLock = (getValue cDev.rawText (str "iCloud Lock")).map Char.toUpper := by
  exact claim_C3_icloud_uppercased cHtml cDev
    (by rw [cHtml_parses]; exact List.mem_singleton.mpr rfl)

/-- C8: every emitted device has an IMEI of exactly fifteen decimal digits,
and a segment that does not start with fifteen digits, or has no
preformatted block, is discarded entirely (the loop body yields nothing
for it). -/
theorem claim_C8_imei_fifteen_digits :
    (∀ html d, d ∈ parseSickwHtml html →
      d.imei.length = 15 ∧ d.imei.all Char.isDigit = true) ∧
    (∀ i chunk,
      ¬((chunk.take 15).length = 15 ∧ (chunk.take 15).all Char.isDigit = true) →
      parseChunk i chunk = none) ∧
    (∀ i chunk, preBlock chunk = none → parseChunk i chunk = none) := by
  refine ⟨fun html d h => ?_, fun i chunk hbad => ?_, fun i chunk hpre => ?_⟩
  · obtain ⟨i, chunk, hp⟩ := mem_parse h
    exact ⟨(parseChunk_some hp).2.1, (parseChunk_some hp).2.2.1⟩
  · simp only [parseChunk]
    rw [if_neg]
    intro hg
    simp only [Bool.and_eq_true, beq_iff_eq] at hg
    exact hbad ⟨hg.1, hg.2⟩
  · simp only [parseChunk]
    by_cases hg : ((chunk.take 15).length == 15 && (chunk.take 15).all Char.isDigit) = true
    · rw [if_pos hg, hpre]
    · rw [if_neg hg]

/-- Witness for C8: the digit invariant at the fixture device, a rejected
segment with a short digit run, and a rejected segment with no block. -/
theorem claim_C8_imei_fifteen_digits_witness :
    (cDev.imei.length = 15 ∧ cDev.imei.all Char.isDigit = true) ∧
    parseChunk 1 (str "12345<pre>x</pre>") = none ∧
    parseChunk 1 (str "123456789012345 no block here") = none := by
  refine ⟨?_, ?_, ?_⟩
  · exact claim_C8_imei_fifteen_digits.1 cHtml cDev
      (by rw [cHtml_parses]; exact List.mem_singleton.mpr rfl)
  · exact claim_C8_imei_fifteen_digits.2.1 1 (str "12345<pre>x</pre>") (by decide)
  · exact claim_C8_imei_fifteen_digits.2.2 1
      (str "123456789012345 no block here") (by decide)

/-- Concrete fixture whose segment starts with sixteen digits. -/
def cHtml10 : List Char :=
  str "<b>IMEI: </b>1234567890123456<pre>x</pre>"

/-- C10: a segment beginning with sixteen or more contiguous digits is
still accepted, and its IMEI is the first fifteen of those digits; the
parse of the sixteen-digit fixture emits the device with the truncated
IMEI. -/
theorem claim_C10_long_digit_run :
    (∀ i chunk pre, (chunk.take 16).length = 16 →
      (chunk.take 16).all Char.isDigit = true →
      preBlock chunk = some pre →
      ∃ d, parseChunk i chunk = some d ∧ d.imei = chunk.take 15) ∧
    (parseSickwHtml cHtml10).map Device.imei = [str "123456789012345"] := by
  constructor
  · intro i chunk pre hlen hdig hpre
    have h15 : chunk.take 15 = (chunk.take 16).take 15 := by
      rw [List.take_take]
      norm_num
    have hlen15 : (chunk.take 15).length = 15 := by
      rw [h15, List.length_take, hlen]
      norm_num
    have hdig15 : (chunk.take 15).all Char.isDigit = true := by
      rw [h15]
      simp only [List.all_eq_true] at hdig ⊢
      intro x hx
      exact hdig x (List.mem_of_mem_take hx)
    simp only [parseChunk]
    rw [if_pos (by simp [hlen15, hdig15]), hpre]
    exact ⟨_, rfl, rfl⟩
  · decide

/-- Witness for C10: the general statement applied at the sixteen-digit
segment of the fixture. -/
theorem claim_C10_long_digit_run_witness :
    ∃ d, parseChunk 1 (str "1234567890123456<pre>x</pre>") = some d ∧
      d.imei = (str "1234567890123456<pre>x</pre>").take 15 := by
  exact claim_C10_long_digit_run.1 1 (str "1234567890123456<pre>x</pre>")
    (str "x") (by decide) (by decide) (by decide)

/-- Field extraction as worded by claim C2: the value ends at whichever
line-break marker occurs first, a break tag or a newline character.
Written from the specification text, to be compared with getValue, which
is written from the source. -/
def getValueSpecC2 (preContent key : List Char) : List Char :=
  let searchKey := key ++ [':']
  match firstOcc searchKey preContent with
  | none => []
  | some idx =>
    let rest := preContent.drop (idx + searchKey.length)
    let stop :=
      match firstOcc (str "<br") rest, firstOcc ['\n'] rest with
      | some a, some b => min a b
      | some a, none => a
      | none, some b => b
      | none, none => rest.length
    cleanVal (rest.take stop)

/-- Counterexample to C2: when a newline precedes the first break tag the
code still cuts at the break tag, not at the newline, so the extracted
value differs from the whichever-occurs-first reading of the claim. -/
theorem claim_C2_counterexample :
    getValue (str "K: a\nb<br>") (str "K") = str "a\nb" ∧
    getValueSpecC2 (str "K: a\nb<br>") (str "K") = str "a" ∧
    getValue (str "K: a\nb<br>") (str "K") ≠
      getValueSpecC2 (str "K: a\nb<br>") (str "K") := by decide

/-- C2 as amended: the value runs from just after the colon up to the first
break tag whenever a break tag occurs anywhere after the colon, even when a
newline occurs earlier; only when no break tag occurs does it end at the
first newline; and only when neither occurs does it run to the end of the
block; then it is tag-stripped, non-breaking-space-decoded and trimmed. -/
theorem claim_C2_br_before_newline :
    ∀ preContent key idx,
      firstOcc (key ++ [':']) preContent = some idx →
      ((∀ e, firstOcc (str "<br") (preContent.drop (idx + (key ++ [':']).length)) = some e →
        getValue preContent key =
          cleanVal ((preContent.drop (idx + (key ++ [':']).length)).take e)) ∧
      (firstOcc (str "<br") (preContent.drop (idx + (key ++ [':']).length)) = none →
        ∀ e, firstOcc ['\n'] (preContent.drop (idx + (key ++ [':']).length)) = some e →
        getValue preContent key =
          cleanVal ((preContent.drop (idx + (key ++ [':']).length)).take e)) ∧
      (firstOcc (str "<br") (preContent.drop (idx + (key ++ [':']).length)) = none →
        firstOcc ['\n'] (preContent.drop (idx + (key ++ [':']).length)) = none →
        getValue preContent key =
          cleanVal (preContent.drop (idx + (key ++ [':']).length)))) := by
  intro preContent key idx hidx
  refine ⟨fun e hbr => ?_, fun hbr e hnl => ?_, fun hbr hnl => ?_⟩
  · simp only [getValue, hidx, hbr]
  · simp only [getValue, hidx, hbr, hnl]
  · simp only [getValue, hidx, hbr, hnl, List.take_length]

/-- Witness for C2 as amended: all three branches at concrete blocks; in
the first, a newline precedes the break tag and the cut is at the break
tag. -/
theorem claim_C2_br_before_newline_witness :
    getValue (str "K: a\nb<br>") (str "K") =
      cleanVal (((str "K: a\nb<br>").drop
        (0 + ((str "K") ++ [':']).length)).take 4) ∧
    getValue (str "K: a\nb") (str "K") =
      cleanVal (((str "K: a\nb").drop (0 + ((str "K") ++ [':']).length)).take 2) ∧
    getValue (str "K: ab") (str "K") =
      cleanVal ((str "K: ab").drop (0 + ((str "K") ++ [':']).length)) := by
  refine ⟨?_, ?_, ?_⟩
  · exact (claim_C2_br_before_newline (str "K: a\nb<br>") (str "K") 0
      (by decide)).1 4 (by decide)
  · exact (claim_C2_br_before_newline (str "K: a\nb") (str "K") 0
      (by decide)).2.1 (by decide) 2 (by decide)
  · exact (claim_C2_br_before_newline (str "K: ab") (str "K") 0
      (by decide)).2.2 (by decide) (by decide)

/-- Separator characters of the bulk-query split regular expression
(src/index.tsx line 620): newline, comma, space, tab. -/
def sepCharB (c : Char) : Bool :=
  c == '\n' || c == ',' || c == ' ' || c == '\t'

/-- Fuel-driven worker for splitRuns, same fuel convention as splitOnAux. -/
def splitRunsAux (p : Char → Bool) : Nat → List Char → List (List Char)
  | 0, s => [s.takeWhile fun c => !p c]
  | Nat.succ fuel, s =>
    match s.dropWhile (fun c => !p c) with
    | [] => [s.takeWhile fun c => !p c]
    | _ :: rs => (s.takeWhile fun c => !p c) :: splitRunsAux p fuel (rs.dropWhile p)

/-- Model of String.prototype.split with a one-or-more character-class
regular expression: cut at every maximal run of separator characters. -/
def splitRuns (p : Char → Bool) (s : List Char) : List (List Char) :=
  splitRunsAux p (s.length + 1) s

/-- First-occurrence-preserving deduplication, the model of building a
JavaScript Set from an array and turning it back into an array. -/
def dedupFirst (l : List (List Char)) : List (List Char) :=
  l.foldl (fun acc x => if acc.contains x then acc else acc ++ [x]) []

/-- Token list of handleBulkSearch (src/index.tsx lines 620-621): split the
raw query on runs of separators, trim each piece, drop empties, and keep
the first occurrence of each distinct token. -/
def uniqueTokens (query : List Char) : List (List Char) :=
  dedupFirst (((splitRuns sepCharB query).map trimWs).filter fun t => !t.isEmpty)

/-- Per-token device predicate of handleBulkSearch (src/index.tsx line
627): the token is a substring of the IMEI, or the serial is non-empty and
the token is a substring of the serial. -/
def matchesTok (q : List Char) (d : Device) : Bool :=
  containsL d.imei q || (!d.serial.isEmpty && containsL d.serial q)

/-- Model of setting a key in the insertion-ordered JavaScript Map: an
existing key keeps its position and has its value replaced; a new key is
appended. -/
def upsert (m : List Device) (d : Device) : List Device :=
  if m.any (fun e => e.id == d.id) then
    m.map fun e => if e.id == d.id then d else e
  else m ++ [d]

/-- Matched-device list of handleBulkSearch (src/index.tsx lines 623-635):
for each token in order, every matching device in registry order is written
into the insertion-ordered map keyed by device id; the result is the map's
value list. -/
def bulkResults (devices : List Device) (query : List Char) : List Device :=
  (uniqueTokens query).foldl
    (fun m q => (devices.filter (matchesTok q)).foldl upsert m) []

/-- Not-found list of handleBulkSearch (src/index.tsx lines 626-633): the
tokens whose match list is empty, in token order. -/
def bulkMissing (devices : List Device) (query : List Char) : List (List Char) :=
  (uniqueTokens query).filter fun q => (devices.filter (matchesTok q)).isEmpty

/-- C9: a trimmed, deduplicated token is in the not-found list exactly when
it matches no device's IMEI or serial number; a token matching at least one
device is never listed, even when all its matches are shared with other
tokens. -/
theorem claim_C9_not_found :
    ∀ devices query q, q ∈ uniqueTokens query →
      (q ∈ bulkMissing devices query ↔ ∀ d ∈ devices, matchesTok q d = false) := by
  intro devices query q hq
  unfold bulkMissing
  rw [List.mem_filter]
  constructor
  · rintro ⟨-, hf⟩ d hd
    rw [List.isEmpty_iff, List.filter_eq_nil_iff] at hf
    simpa using hf d hd
  · intro h
    refine ⟨hq, ?_⟩
    rw [List.isEmpty_iff, List.filter_eq_nil_iff]
    intro d hd
    simp [h d hd]

/-- Witness for C9: in a registry with one device, the token matching
nothing is reported missing and the matching token is not. -/
theorem claim_C9_not_found_witness :
    ((str "999") ∈ bulkMissing [cDev] (str "999 123") ↔
      ∀ d ∈ [cDev], matchesTok (str "999") d = false) ∧
    ((str "123") ∈ bulkMissing [cDev] (str "999 123") ↔
      ∀ d ∈ [cDev], matchesTok (str "123") d = false) ∧
    (str "999") ∈ bulkMissing [cDev] (str "999 123") ∧
    (str "123") ∉ bulkMissing [cDev] (str "999 123") := by
  refine ⟨claim_C9_not_found [cDev] (str "999 123") (str "999") (by decide),
    claim_C9_not_found [cDev] (str "999 123") (str "123") (by decide),
    by decide, by decide⟩

/-- Append the device only when no element with its id is present; the
effect of a map write whose value is already determined by its key. -/
def insertAbsentById (m : List Device) (d : Device) : List Device :=
  if m.any (fun e => e.id == d.id) then m else m ++ [d]

/-- Deduplicate a device list by id, keeping the first occurrence of each
id and the first-occurrence order. -/
def dedupById (l : List Device) : List Device :=
  l.foldl insertAbsentById []

/-- The nested fold of bulkResults equals one fold over the concatenation
of the per-token match lists. -/
theorem foldl_nested_eq_flatMap (f : List Char → List Device)
    (toks : List (List Char)) (init : List Device) :
    toks.foldl (fun m q => (f q).foldl upsert m) init =
      (toks.flatMap f).foldl upsert init := by
  induction toks generalizing init with
  | nil => rfl
  | cons t ts ih =>
    simp only [List.foldl_cons, List.flatMap_cons, List.foldl_append]
    exact ih _

/-- When all written devices come from a registry with pairwise distinct
ids, the value-replacing map write behaves as insert-if-absent. -/
theorem foldl_upsert_eq_insert {devices : List Device}
    (hids : (devices.map Device.id).Nodup) :
    ∀ (l m : List Device), (∀ x ∈ l, x ∈ devices) → (∀ x ∈ m, x ∈ devices) →
      l.foldl upsert m = l.foldl insertAbsentById m := by
  intro l
  induction l with
  | nil => intro m _ _; rfl
  | cons d ds ih =>
    intro m hl hm
    have hd : d ∈ devices := hl d (List.mem_cons_self d ds)
    have hstep : upsert m d = insertAbsentById m d := by
      unfold upsert insertAbsentById
      by_cases hany : m.any (fun e => e.id == d.id) = true
      · rw [if_pos hany, if_pos hany]
        have hcg : ∀ e ∈ m, (if e.id == d.id then d else e) = id e := by
          intro e he
          simp only [id]
          by_cases hid : (e.id == d.id) = true
          · rw [if_pos hid]
            have hideq : e.id = d.id := by simpa using hid
            exact (List.inj_on_of_nodup_map hids (hm e he) hd hideq).symm
          · rw [if_neg hid]
        rw [List.map_congr_left hcg, List.map_id]
      · rw [if_neg hany, if_neg hany]
    rw [List.foldl_cons, List.foldl_cons, hstep]
    apply ih
    · intro x hx
      exact hl x (List.mem_cons_of_mem d hx)
    · intro x hx
      unfold insertAbsentById at hx
      by_cases hany : m.any (fun e => e.id == d.id) = true
      · rw [if_pos hany] at hx
        exact hm x hx
      · rw [if_neg hany] at hx
        rcases List.mem_append.mp hx with h | h
        · exact hm x h
        · rw [List.mem_singleton.mp h]
          exact hd

/-- Inserting a list with pairwise distinct ids, all fresh for the
accumulator, appends it unchanged. -/
theorem foldl_insert_of_nodup :
    ∀ (l m : List Device), ((m ++ l).map Device.id).Nodup →
      l.foldl insertAbsentById m = m ++ l := by
  intro l
  induction l with
  | nil => intro m _; simp
  | cons d ds ih =>
    intro m h
    have hnotin : (m.any fun e => e.id == d.id) = false := by
      rw [List.map_append, List.nodup_append] at h
      have hdisj := h.2.2
      rw [Bool.eq_false_iff]
      intro hany
      obtain ⟨e, he, hid⟩ := List.any_eq_true.mp hany
      exact hdisj (List.mem_map_of_mem Device.id he)
        (by simp [show e.id = d.id from by simpa using hid])
    rw [List.foldl_cons]
    have hstep : insertAbsentById m d = m ++ [d] := by
      unfold insertAbsentById
      rw [if_neg (by simp [hnotin])]
    have hre : m ++ d :: ds = (m ++ [d]) ++ ds := by simp
    rw [hre] at h
    rw [hstep, ih (m ++ [d]) h, hre]

/-- Registry and query exhibiting the order counterexample for C1. -/
def dA : Device :=
  { id := str "a", imei := str "111111111111111", imei2 := []
    modelDesc := str "A", serial := [], warrantyStatus := []
    icloudLock := [], carrier := [], simLock := [], estPurchaseDate := []
    activationStatus := [], rawText := [], group := Group.Other
    isActive := false }

/-- Second counterexample device, later in the registry than dA. -/
def dB : Device :=
  { id := str "b", imei := str "222222222222222", imei2 := []
    modelDesc := str "B", serial := [], warrantyStatus := []
    icloudLock := [], carrier := [], simLock := [], estPurchaseDate := []
    activationStatus := [], rawText := [], group := Group.Other
    isActive := false }

/-- Query naming the second device's IMEI before the first device's. -/
def cQuery : List Char := str "222222222222222 111111111111111"

/-- Counterexample to C1: with registry order dA before dB and a query
whose first token matches only dB, the result is dB before dA — the device
earlier in the registry appears later in the result. -/
theorem claim_C1_counterexample :
    bulkResults [dA, dB] cQuery = [dB, dA] ∧ dB ≠ dA := by decide

/-- C1 as amended: for a registry with pairwise distinct device ids, the
bulk-search result is the per-token match lists concatenated in token
order — each in registry order — deduplicated by id keeping first
occurrences; so the global order is by first matching token, not registry
order, while for a single-token query the result is exactly the
registry-order filter. -/
theorem claim_C1_token_major_order :
    ∀ devices query, (devices.map Device.id).Nodup →
      bulkResults devices query =
        dedupById ((uniqueTokens query).flatMap
          fun q => devices.filter (matchesTok q)) ∧
      (∀ t, uniqueTokens query = [t] →
        bulkResults devices query = devices.filter (matchesTok t)) := by
  intro devices query hids
  have hmain : bulkResults devices query =
      dedupById ((uniqueTokens query).flatMap
        fun q => devices.filter (matchesTok q)) := by
    unfold bulkResults dedupById
    rw [foldl_nested_eq_flatMap]
    apply foldl_upsert_eq_insert hids
    · intro x hx
      obtain ⟨q, _, hxq⟩ := List.mem_flatMap.mp hx
      exact (List.mem_filter.mp hxq).1
    · intro x hx
      exact absurd hx (List.not_mem_nil x)
  refine ⟨hmain, fun t ht => ?_⟩
  rw [hmain, ht, List.flatMap_cons, List.flatMap_nil, List.append_nil]
  unfold dedupById
  have hsub : ((devices.filter (matchesTok t)).map Device.id).Sublist
      (devices.map Device.id) :=
    List.Sublist.map Device.id (List.filter_sublist devices)
  exact foldl_insert_of_nodup _ [] (by simpa using hids.sublist hsub)

/-- Witness for C1 as amended: the characterization and the single-token
clause applied at the concrete two-device registry. -/
theorem claim_C1_token_major_order_witness :
    bulkResults [dA, dB] cQuery =
      dedupById ((uniqueTokens cQuery).flatMap
        fun q => [dA, dB].filter (matchesTok q)) ∧
    bulkResults [dA, dB] (str "111111111111111") =
      [dA, dB].filter (matchesTok (str "111111111111111")) := by
  constructor
  · exact (claim_C1_token_major_order [dA, dB] cQuery (by decide)).1
  · exact (claim_C1_token_major_order [dA, dB] (str "111111111111111")
      (by decide)).2 (str "111111111111111") (by decide)

/-- Bucket predicate of the ICLOUD section (src/index.tsx line 149). -/
def pIcloud (d : Device) : Bool := d.icloudLock == str "ON"

/-- Bucket predicate of the locked non-active T-Mobile section (line 154). -/
def pTmoNon (d : Device) : Bool :=
  !pIcloud d && decide (d.group = Group.TMobileSprint) && !d.isActive

/-- Bucket predicate of the locked active T-Mobile section (line 159). -/
def pTmoAct (d : Device) : Bool :=
  !pIcloud d && decide (d.group = Group.TMobileSprint) && d.isActive

/-- Bucket predicate of the locked non-active other-carrier section (line 164). -/
def pOtherNon (d : Device) : Bool :=
  !pIcloud d && !decide (d.group = Group.TMobileSprint) &&
    !decide (d.group = Group.Unlocked) && !d.isActive

/-- Bucket predicate of the locked active other-carrier section (line 169). -/
def pOtherAct (d : Device) : Bool :=
  !pIcloud d && !decide (d.group = Group.TMobileSprint) &&
    !decide (d.group = Group.Unlocked) && d.isActive

/-- Bucket predicate of the unlocked non-active section (line 174). -/
def pUnlNon (d : Device) : Bool :=
  !pIcloud d && decide (d.group = Group.Unlocked) && !d.isActive

/-- Bucket predicate of the unlocked active section (line 179). -/
def pUnlAct (d : Device) : Bool :=
  !pIcloud d && decide (d.group = Group.Unlocked) && d.isActive

/-- The seven bucket predicates in the fixed order the export applies them. -/
def bucketPreds : List (Device → Bool) :=
  [pIcloud, pTmoNon, pTmoAct, pOtherNon, pOtherAct, pUnlNon, pUnlAct]

/-- Each device satisfies exactly one of the seven bucket predicates. -/
theorem bucket_exactly_one (d : Device) :
    (bucketPreds.filter fun p => p d).length = 1 := by
  by_cases h1 : (d.icloudLock == str "ON") = true <;>
    cases hg : d.group <;> cases ha : d.isActive <;>
    simp [bucketPreds, pIcloud, pTmoNon, pTmoAct, pOtherNon, pOtherAct,
      pUnlNon, pUnlAct, h1, hg, ha]

/-- C7: the seven export buckets partition every device list — each device
satisfies exactly one bucket predicate, the bucket sizes sum to the input
length, and a device whose icloudLock is ON lands in the ICLOUD bucket and
in no other, whatever its group and activation. -/
theorem claim_C7_bucket_partition :
    (∀ d : Device, (bucketPreds.filter fun p => p d).length = 1) ∧
    (∀ devices : List Device,
      (devices.filter pIcloud).length + (devices.filter pTmoNon).length +
      (devices.filter pTmoAct).length + (devices.filter pOtherNon).length +
      (devices.filter pOtherAct).length + (devices.filter pUnlNon).length +
      (devices.filter pUnlAct).length = devices.length) ∧
    (∀ d : Device, d.icloudLock = str "ON" →
      pIcloud d = true ∧ pTmoNon d = false ∧ pTmoAct d = false ∧
      pOtherNon d = false ∧ pOtherAct d = false ∧ pUnlNon d = false ∧
      pUnlAct d = false) := by
  refine ⟨bucket_exactly_one, fun devices => ?_, fun d hd => ?_⟩
  · induction devices with
    | nil => rfl
    | cons d ds ih =>
      simp only [List.filter_cons]
      by_cases h1 : (d.icloudLock == str "ON") = true <;>
        cases hg : d.group <;> cases ha : d.isActive <;>
        simp [pIcloud, pTmoNon, pTmoAct, pOtherNon, pOtherAct,
          pUnlNon, pUnlAct, h1, hg, ha] <;>
        omega
  · have h1 : (d.icloudLock == str "ON") = true := by simp [hd]
    simp [pIcloud, pTmoNon, pTmoAct, pOtherNon, pOtherAct, pUnlNon,
      pUnlAct, h1]

/-- Device locked to iCloud for the C7 witness and the C4 counterexample. -/
def dOn : Device :=
  { dA with
    id := str "c"
    icloudLock := str "ON"
    group := Group.TMobileSprint
    isActive := true }

/-- Second iCloud-locked device for the C4 counterexample. -/
def dOn2 : Device :=
  { dB with id := str "e", icloudLock := str "ON" }

/-- Witness for C7: exactly-one and the sum identity at concrete devices,
and the ICLOUD clause at an iCloud-locked T-Mobile active device. -/
theorem claim_C7_bucket_partition_witness :
    (bucketPreds.filter fun p => p dOn).length = 1 ∧
    ([dA, dB, dOn].filter pIcloud).length +
      ([dA, dB, dOn].filter pTmoNon).length +
      ([dA, dB, dOn].filter pTmoAct).length +
      ([dA, dB, dOn].filter pOtherNon).length +
      ([dA, dB, dOn].filter pOtherAct).length +
      ([dA, dB, dOn].filter pUnlNon).length +
      ([dA, dB, dOn].filter pUnlAct).length = ([dA, dB, dOn] : List Device).length ∧
    (pIcloud dOn = true ∧ pTmoNon dOn = false ∧ pTmoAct dOn = false ∧
      pOtherNon dOn = false ∧ pOtherAct dOn = false ∧ pUnlNon dOn = false ∧
      pUnlAct dOn = false) := by
  refine ⟨claim_C7_bucket_partition.1 dOn,
    claim_C7_bucket_partition.2.1 [dA, dB, dOn],
    claim_C7_bucket_partition.2.2 dOn (by decide)⟩

/-- Model cleanup of the export (src/index.tsx line 140): remove every
-USA substring and trim. -/
def cleanModel (name : List Char) : List Char :=
  trimWs (replaceAllL (str "-USA") [] name)

/-- The fixed-width separator line of the export (line 141). -/
def sepLine : List Char := str "==============================="

/-- Per-device block list of the export (lines 143-145): model line, IMEI
line and separator line per device, blocks joined with single newlines. -/
def formatList (devs : List Device) : List Char :=
  List.intercalate (str "\n")
    (devs.map fun d =>
      cleanModel d.modelDesc ++ str "\n" ++ d.imei ++ str "\n" ++ sepLine)

/-- Header text of the ICLOUD section (line 151). -/
def hIcloud : List Char := str "*ICLOUD*\n\n"

/-- Header text of the locked non-active T-Mobile section (line 156). -/
def hTmoNon : List Char :=
  str "locked and non active tmoblie with network phone are like this with the device detetils,\n\n*LOCKED N NON ACTIVE T-MOBILE*\n\n"

/-- Header text of the locked active T-Mobile section (line 161). -/
def hTmoAct : List Char := str "*LOCKED N ACTIVE T-MOBILE*\n\n"

/-- Header text of the locked non-active other-carrier section (line 166). -/
def hOtherNon : List Char :=
  str "locked and non active other network phone are like this with the device detetils,\n\n*LOCKED N NON ACTIVE*\n\n"

/-- Header text of the locked active other-carrier section (line 171). -/
def hOtherAct : List Char := str "*LOCKED N ACTIVE*\n\n"

/-- Header text of the unlocked non-active section (line 176). -/
def hUnlNon : List Char :=
  str "unlocked and non active phone are like this with the device detetils,\n\nUNLOCKED N NON ACTIVE\n\n"

/-- Header text of the unlocked active section (line 181). -/
def hUnlAct : List Char :=
  str "unlocked and active phone like this device detetils,\n\nUNLOCKED N ACTIVE\n\n"

/-- Model of generateExportText (src/index.tsx lines 139-185): append each
non-empty bucket's header, block list and two newlines in the fixed bucket
order, then trim the whole output. -/
def generateExportText (devices : List Device) : List Char :=
  let icloud := devices.filter pIcloud
  let out1 : List Char :=
    if icloud.length > 0 then hIcloud ++ formatList icloud ++ str "\n\n"
    else []
  let tmobileNonActive := devices.filter pTmoNon
  let out2 : List Char :=
    if tmobileNonActive.length > 0 then
      hTmoNon ++ formatList tmobileNonActive ++ str "\n\n"
    else []
  let tmobileActive := devices.filter pTmoAct
  let out3 : List Char :=
    if tmobileActive.length > 0 then
      hTmoAct ++ formatList tmobileActive ++ str "\n\n"
    else []
  let lockedOtherNonActive := devices.filter pOtherNon
  let out4 : List Char :=
    if lockedOtherNonActive.length > 0 then
      hOtherNon ++ formatList lockedOtherNonActive ++ str "\n\n"
    else []
  let lockedOtherActive := devices.filter pOtherAct
  let out5 : List Char :=
    if lockedOtherActive.length > 0 then
      hOtherAct ++ formatList lockedOtherActive ++ str "\n\n"
    else []
  let unlockedNonActive := devices.filter pUnlNon
  let out6 : List Char :=
    if unlockedNonActive.length > 0 then
      hUnlNon ++ formatList unlockedNonActive ++ str "\n\n"
    else []
  let unlockedActive := devices.filter pUnlAct
  let out7 : List Char :=
    if unlockedActive.length > 0 then
      hUnlAct ++ formatList unlockedActive ++ str "\n\n"
    else []
  trimWs (out1 ++ out2 ++ out3 ++ out4 ++ out5 ++ out6 ++ out7)

/-- Single header lines of the seven buckets, as claim C4 reads them. -/
def headerLinesC4 : List (List Char) :=
  [str "*ICLOUD*", str "*LOCKED N NON ACTIVE T-MOBILE*",
   str "*LOCKED N ACTIVE T-MOBILE*", str "*LOCKED N NON ACTIVE*",
   str "*LOCKED N ACTIVE*", str "UNLOCKED N NON ACTIVE",
   str "UNLOCKED N ACTIVE"]

/-- Export text as worded by claim C4: each non-empty bucket is a header
line followed by the device blocks, with one blank line between a device's
trailing separator and the next device's model line and a blank line
between bucket sections, trimmed.  Written from the claim text, to be
compared with generateExportText, which is written from the source. -/
def renderClaimC4 (devices : List Device) : List Char :=
  trimWs (List.intercalate (str "\n\n")
    ((headerLinesC4.zip bucketPreds).filterMap fun pr =>
      if (devices.filter pr.2).isEmpty then none
      else some (pr.1 ++ str "\n" ++
        List.intercalate (str "\n\n")
          ((devices.filter pr.2).map fun d =>
            cleanModel d.modelDesc ++ str "\n" ++ d.imei ++ str "\n" ++
              sepLine))))

/-- Counterexample to C4: with two iCloud-locked devices the code separates
consecutive device blocks by a single newline (the separator line is
immediately followed by the next model line) and puts a blank line after
the header, so the output differs from the claim's rendering. -/
theorem claim_C4_counterexample :
    generateExportText [dOn, dOn2] ≠ renderClaimC4 [dOn, dOn2] ∧
    generateExportText [dOn, dOn2] =
      str "*ICLOUD*\n\nA\n111111111111111\n===============================\nB\n222222222222222\n===============================" := by
  decide

/-- The seven export sections in order: full header text and bucket
predicate of each bucket. -/
def exportSections : List (List Char × (Device → Bool)) :=
  [(hIcloud, pIcloud), (hTmoNon, pTmoNon), (hTmoAct, pTmoAct),
   (hOtherNon, pOtherNon), (hOtherAct, pOtherAct), (hUnlNon, pUnlNon),
   (hUnlAct, pUnlAct)]

/-- Contribution of one bucket to the export chain: header, block list and
trailing blank line when the bucket is non-empty, nothing otherwise. -/
def secNN (devices : List Device) (pr : List Char × (Device → Bool)) :
    List Char :=
  if (devices.filter pr.2).length > 0 then
    pr.1 ++ formatList (devices.filter pr.2) ++ str "\n\n"
  else []

/-- Section string of one bucket without the trailing blank line: present
exactly when the bucket is non-empty. -/
def secOpt (devices : List Device) (pr : List Char × (Device → Bool)) :
    Option (List Char) :=
  if (devices.filter pr.2).isEmpty then none
  else some (pr.1 ++ formatList (devices.filter pr.2))

/-- Rendering of the amended C4: non-empty buckets contribute their full
header text followed by the device blocks joined by single newlines, the
section strings are joined by one blank line, and empty buckets contribute
nothing; no trailing separator and no trimming are needed. -/
def renderAmendedC4 (devices : List Device) : List Char :=
  List.intercalate (str "\n\n") (exportSections.filterMap (secOpt devices))

/-- Intercalating a singleton yields the single part. -/
theorem intercalate_single (sep x : List Char) :
    List.intercalate sep [x] = x := by
  simp [List.intercalate]

/-- Intercalating at least two parts peels off the first part and one
separator. -/
theorem intercalate_cons2 (sep x y : List Char) (zs : List (List Char)) :
    List.intercalate sep (x :: y :: zs) =
      x ++ sep ++ List.intercalate sep (y :: zs) := by
  simp [List.intercalate, List.intersperse]

/-- The head survives appending on the right. -/
theorem head?_append_left {a b : List Char} {c : Char}
    (h : a.head? = some c) : (a ++ b).head? = some c := by
  cases a <;> simp_all

/-- A list whose head the predicate rejects is untouched by dropWhile. -/
theorem dropWhile_eq_self_of_head {l : List Char} {c : Char}
    (h : l.head? = some c) (hw : wsB c = false) : l.dropWhile wsB = l := by
  cases l <;> simp_all [List.dropWhile_cons]

/-- Trimming a string that starts and ends with non-whitespace and carries
a trailing blank line removes exactly that blank line. -/
theorem trimWs_append_nn {X : List Char} {c1 c2 : Char}
    (h1 : X.head? = some c1) (hw1 : wsB c1 = false)
    (h2 : X.getLast? = some c2) (hw2 : wsB c2 = false) :
    trimWs (X ++ str "\n\n") = X := by
  unfold trimWs
  rw [dropWhile_eq_self_of_head (head?_append_left h1) hw1]
  have hrev : (X ++ str "\n\n").reverse = '\n' :: '\n' :: X.reverse := by
    rw [show str "\n\n" = ['\n', '\n'] from rfl, List.reverse_append]
    rfl
  rw [hrev]
  have hnl : wsB '\n' = true := rfl
  rw [List.dropWhile_cons, if_pos hnl, List.dropWhile_cons, if_pos hnl]
  have hh : X.reverse.head? = some c2 := by
    rw [List.head?_reverse]
    exact h2
  rw [dropWhile_eq_self_of_head hh hw2, List.reverse_reverse]

/-- The block list of a non-empty bucket ends with the separator line's
equals sign. -/
theorem formatList_getLast :
    ∀ devs : List Device, devs ≠ [] → (formatList devs).getLast? = some '=' := by
  intro devs
  induction devs with
  | nil => intro h; cases h rfl
  | cons d ds ih =>
    intro _
    cases ds with
    | nil =>
      show (List.intercalate (str "\n") [_]).getLast? = some '='
      rw [intercalate_single]
      simp [List.getLast?_append, show sepLine.getLast? = some '=' from by decide]
    | cons e es =>
      have step : formatList (d :: e :: es) =
          (cleanModel d.modelDesc ++ str "\n" ++ d.imei ++ str "\n" ++ sepLine) ++
            str "\n" ++ formatList (e :: es) := by
        show List.intercalate (str "\n") (_ :: _ :: _) = _
        rw [intercalate_cons2]
        rfl
      rw [step, List.getLast?_append, List.getLast?_append,
        ih (by simp), Option.or]

/-- Every section's header starts with a printable, non-whitespace
character. -/
theorem exportSections_head {pr : List Char × (Device → Bool)}
    (h : pr ∈ exportSections) : ∃ c, pr.1.head? = some c ∧ wsB c = false := by
  simp only [exportSections, List.mem_cons, List.not_mem_nil, or_false] at h
  rcases h with rfl | rfl | rfl | rfl | rfl | rfl | rfl <;>
    first
      | exact ⟨'*', by decide, by decide⟩
      | exact ⟨'l', by decide, by decide⟩
      | exact ⟨'u', by decide, by decide⟩

/-- The first part's head is the head of the intercalation. -/
theorem intercalate_head {sep p : List Char} {c : Char}
    (rest : List (List Char)) (h : p.head? = some c) :
    (List.intercalate sep (p :: rest)).head? = some c := by
  cases rest with
  | nil => rw [intercalate_single]; exact h
  | cons q qs =>
    rw [intercalate_cons2]
    exact head?_append_left (head?_append_left h)

/-- If every part ends with the given character, so does the
intercalation. -/
theorem intercalate_last (sep : List Char) (c : Char) :
    ∀ parts : List (List Char), parts ≠ [] →
      (∀ p ∈ parts, p.getLast? = some c) →
      (List.intercalate sep parts).getLast? = some c := by
  intro parts
  induction parts with
  | nil => intro h; cases h rfl
  | cons p rest ih =>
    intro _ hall
    cases rest with
    | nil =>
      rw [intercalate_single]
      exact hall p (List.mem_cons_self p [])
    | cons q qs =>
      rw [intercalate_cons2]
      have hrest := ih (by simp) fun x hx => hall x (List.mem_cons_of_mem p hx)
      rw [List.getLast?_append, List.getLast?_append, hrest, Option.or]

/-- Appending a blank line to every part and concatenating equals the
intercalation by blank lines followed by one trailing blank line. -/
theorem flatten_append_nn :
    ∀ parts : List (List Char),
      (parts.map fun p => p ++ str "\n\n").flatten =
        if parts.isEmpty then []
        else List.intercalate (str "\n\n") parts ++ str "\n\n" := by
  intro parts
  induction parts with
  | nil => rfl
  | cons p rest ih =>
    cases rest with
    | nil => simp [intercalate_single]
    | cons q qs =>
      rw [List.map_cons, List.flatten_cons, ih, intercalate_cons2]
      simp [List.append_assoc]

/-- The guarded section chain equals the concatenation of the filtered
section strings, each with its trailing blank line. -/
theorem flatten_if_sections (devices : List Device) :
    ∀ zs : List (List Char × (Device → Bool)),
      (zs.map (secNN devices)).flatten =
        ((zs.filterMap (secOpt devices)).map fun p => p ++ str "\n\n").flatten := by
  intro zs
  induction zs with
  | nil => rfl
  | cons z rest ih =>
    by_cases hbe : (devices.filter z.2).isEmpty = true
    · have hnil : devices.filter z.2 = [] := List.isEmpty_iff.mp hbe
      have h1 : secNN devices z = [] := by
        rw [secNN, hnil]
        simp
      have h2 : secOpt devices z = none := by
        rw [secOpt, if_pos hbe]
      rw [List.map_cons, List.flatten_cons, h1, List.nil_append,
        List.filterMap_cons_none h2, ih]
    · have hne : devices.filter z.2 ≠ [] := by
        simpa [List.isEmpty_iff] using hbe
      have h1 : secNN devices z =
          z.1 ++ formatList (devices.filter z.2) ++ str "\n\n" := by
        rw [secNN, if_pos (List.length_pos.mpr hne)]
      have h2 : secOpt devices z =
          some (z.1 ++ formatList (devices.filter z.2)) := by
        rw [secOpt, if_neg hbe]
      rw [List.map_cons, List.flatten_cons, h1,
        List.filterMap_cons_some h2, List.map_cons,
        List.flatten_cons, ih, List.append_assoc]

/-- The export equals the trimmed flattening of the guarded section
chain. -/
theorem export_chain (devices : List Device) :
    generateExportText devices =
      trimWs ((exportSections.map (secNN devices)).flatten) := by
  simp only [generateExportText, exportSections, secNN, List.map_cons,
    List.map_nil, List.flatten_cons, List.flatten_nil, List.append_nil,
    List.append_assoc]

/-- C4 as amended: the export renders, for each non-empty bucket in order,
the bucket's full header text (for four buckets — locked non-active
T-Mobile, locked non-active other, unlocked non-active and unlocked
active — a preamble sentence line and a blank line before the header
line, and for all buckets a blank line after the header) followed by the
device blocks — clean model line, IMEI line, separator line — joined by
single newlines, with no blank line between a device's separator and the
next device's model line; section strings are joined by exactly one blank
line; empty buckets contribute nothing; the result carries no leading or
trailing whitespace. -/
theorem claim_C4_export_format :
    ∀ devices, generateExportText devices = renderAmendedC4 devices := by
  intro devices
  rw [export_chain, flatten_if_sections, flatten_append_nn, renderAmendedC4]
  cases hp : exportSections.filterMap (secOpt devices) with
  | nil => rfl
  | cons p rest =>
    rw [if_neg (by simp)]
    have hparts : ∀ x ∈ p :: rest,
        (∃ c, x.head? = some c ∧ wsB c = false) ∧ x.getLast? = some '=' := by
      intro x hx
      rw [← hp] at hx
      obtain ⟨pr, hpr, hxeq⟩ := List.mem_filterMap.mp hx
      rw [secOpt] at hxeq
      by_cases hbe : (devices.filter pr.2).isEmpty = true
      · rw [if_pos hbe] at hxeq
        cases hxeq
      · rw [if_neg hbe] at hxeq
        rw [Option.some_inj] at hxeq
        subst hxeq
        refine ⟨?_, ?_⟩
        · obtain ⟨c, hc, hw⟩ := exportSections_head hpr
          exact ⟨c, head?_append_left hc, hw⟩
        · have hbne : devices.filter pr.2 ≠ [] := by
            simpa [List.isEmpty_iff] using hbe
          rw [List.getLast?_append, formatList_getLast _ hbne, Option.or]
    obtain ⟨⟨c1, hc1, hw1⟩, -⟩ := hparts p (List.mem_cons_self p rest)
    exact trimWs_append_nn (intercalate_head rest hc1) hw1
      (intercalate_last (str "\n\n") '=' (p :: rest) (by simp)
        fun q hq => (hparts q hq).2)
      (by decide)

end Sickw
